import Mathlib

/-!
Verification of `samber/go-safe-csv-writer` (package `csv`).

The embedding models Go strings as lists of Unicode code points (`List Char`);
the source operates on UTF-8 bytes, and for valid UTF-8 input every byte-level
comparison it performs (against the ASCII characters `=`, `+`, `-`, `@`, tab,
LF, CR, `"`, and an ASCII delimiter byte) coincides with the corresponding
code-point comparison, since no ASCII byte occurs inside a multi-byte UTF-8
sequence. Go `rune` values (delimiters) are modelled as `Int`.

The underlying `bufio.Writer` is modelled by the `data`/`werr` fields of
`SafeWriter`: writes append to `data` when no error is latched and fail with
the latched error otherwise, which is `bufio.Writer`'s sticky-error contract
(a failing flush to the underlying sink both stores and returns the error, and
every later operation returns the stored error without writing).
-/

/-- `SafetyOpts` from the source: one boolean switch per protective behavior. -/
structure SafetyOpts where
  ForceDoubleQuotes : Bool
  EscapeCharEqual : Bool
  EscapeCharPlus : Bool
  EscapeCharMinus : Bool
  EscapeCharAt : Bool
  EscapeCharTab : Bool
  EscapeCharCR : Bool
deriving DecidableEq, Repr

/-- `FullSafety` preset: every switch enabled. -/
def FullSafety : SafetyOpts :=
  ⟨true, true, true, true, true, true, true⟩

/-- `EscapeAll` preset: every escape switch enabled, forced quoting disabled. -/
def EscapeAll : SafetyOpts :=
  ⟨false, true, true, true, true, true, true⟩

/-- A policy with every switch disabled (the zero value of `SafetyOpts` in Go). -/
def noSafety : SafetyOpts :=
  ⟨false, false, false, false, false, false, false⟩

/-- Errors the writer can produce: `errInvalidDelim` from the source, and IO
errors latched by the underlying buffered writer (indexed abstractly). -/
inductive GoError where
  | invalidDelim : GoError
  | ioError : Nat → GoError
deriving DecidableEq, Repr

/-- The `SafeWriter` struct. `data` is everything written to the underlying
buffered writer so far; `werr` is the buffered writer's sticky error slot. -/
structure SafeWriter where
  Comma : Int
  UseCRLF : Bool
  opts : SafetyOpts
  data : List Char
  werr : Option GoError
deriving DecidableEq, Repr

/-- `NewSafeWriter`: delimiter `,` (code 44), LF line endings, fresh buffer. -/
def NewSafeWriter (opts : SafetyOpts) : SafeWriter :=
  ⟨44, false, opts, [], none⟩

/-- One write to the underlying `bufio.Writer`: append when no error is
latched, otherwise fail with the latched error and write nothing. -/
def bwWrite (w : SafeWriter) (s : List Char) : SafeWriter × Option GoError :=
  match w.werr with
  | some e => (w, some e)
  | none => ({ w with data := w.data ++ s }, none)

/-- `bufio.Writer.Flush`: returns the latched error if any; flushing to the
pure sink itself never fails. -/
def bwFlush (w : SafeWriter) : SafeWriter × Option GoError :=
  (w, w.werr)

/-- `utf8.ValidRune` from the Go standard library (a dependency of the
source): true on non-surrogate code points in `[0, 0x10FFFF]`. -/
def utf8ValidRune (r : Int) : Bool :=
  (decide (0 ≤ r) && decide (r < 0xD800)) || (decide (0xDFFF < r) && decide (r ≤ 0x10FFFF))

/-- `validDelim` from the source: not NUL, `"`, CR, LF, a valid rune, and not
`utf8.RuneError` (U+FFFD). -/
def validDelim (r : Int) : Bool :=
  !decide (r = 0) && !decide (r = 34) && !decide (r = 13) && !decide (r = 10)
    && utf8ValidRune r && !decide (r = 0xFFFD)

/-- `unicode.IsSpace` from the Go standard library (a dependency of the
source): Go's White_Space table, i.e. TAB..CR, space, NEL, NBSP, and the
non-Latin-1 White_Space ranges. -/
def unicodeIsSpace (c : Char) : Bool :=
  let n := c.toNat
  (decide (9 ≤ n) && decide (n ≤ 13)) || decide (n = 32) || decide (n = 0x85)
    || decide (n = 0xA0) || decide (n = 0x1680)
    || (decide (0x2000 ≤ n) && decide (n ≤ 0x200A))
    || decide (n = 0x2028) || decide (n = 0x2029) || decide (n = 0x202F)
    || decide (n = 0x205F) || decide (n = 0x3000)

/-- The sanitization switch inlined in `SafeWriter.Write` (lines 91-107): when
the field is non-empty, the first matching case in source order prepends one
space. Note the `EscapeCharCR` case tests the literal line-feed character. -/
def sanitizeField (opts : SafetyOpts) (field : List Char) : List Char :=
  match field with
  | [] => field
  | c :: _ =>
    if opts.EscapeCharEqual ∧ c = '=' then ' ' :: field
    else if opts.EscapeCharPlus ∧ c = '+' then ' ' :: field
    else if opts.EscapeCharMinus ∧ c = '-' then ' ' :: field
    else if opts.EscapeCharAt ∧ c = '@' then ' ' :: field
    else if opts.EscapeCharTab ∧ c = '\t' then ' ' :: field
    else if opts.EscapeCharCR ∧ c = '\n' then ' ' :: field
    else field

/-- `fieldNeedsQuotes` from the source. The ASCII-delimiter byte scan and the
`ContainsRune`/`ContainsAny` branch both become code-point scans here (see the
file header on byte/code-point agreement for valid UTF-8). -/
def fieldNeedsQuotes (comma : Int) (opts : SafetyOpts) (field : List Char) : Bool :=
  if field = [] then false
  else if field = ['\\', '.'] then true
  else if opts.ForceDoubleQuotes then true
  else
    let hasSpecial :=
      if comma < 128 then
        field.any fun c =>
          decide (c = '\n') || decide (c = '\r') || decide (c = '\"')
            || decide ((c.toNat : Int) = comma)
      else
        (field.any fun c => decide ((c.toNat : Int) = comma))
          || (field.any fun c => decide (c = '\"') || decide (c = '\r') || decide (c = '\n'))
    if hasSpecial then true
    else
      match field with
      | [] => false
      | c :: _ => unicodeIsSpace c

/-- The quoted-field emission loop of `SafeWriter.Write` (lines 121-156):
the source scans for the next `"`, CR or LF, copies everything before it
verbatim and transforms the special character; this recursion emits the same
characters one segment element at a time. -/
def writeQuotedBody (useCRLF : Bool) : List Char → List Char
  | [] => []
  | c :: rest =>
    (if c = '\"' then ['\"', '\"']
     else if c = '\r' then (if useCRLF then [] else ['\r'])
     else if c = '\n' then (if useCRLF then ['\r', '\n'] else ['\n'])
     else [c]) ++ writeQuotedBody useCRLF rest

/-- The per-field pipeline of `SafeWriter.Write`: sanitize, decide quoting,
emit either the bare field or the quote-wrapped encoded body. -/
def encodeField (comma : Int) (useCRLF : Bool) (opts : SafetyOpts) (field : List Char) : List Char :=
  let f := sanitizeField opts field
  if fieldNeedsQuotes comma opts f then '\"' :: (writeQuotedBody useCRLF f ++ ['\"'])
  else f

/-- The field loop of `SafeWriter.Write`: delimiter before every field but the
first, then the field's encoding, then the line terminator; every underlying
write is checked and aborts the record on error. -/
def writeFields : SafeWriter → Bool → List (List Char) → SafeWriter × Option GoError
  | w, _, [] => bwWrite w (if w.UseCRLF then ['\r', '\n'] else ['\n'])
  | w, isFirst, field :: rest =>
    match (if isFirst then (w, none) else bwWrite w [Char.ofNat w.Comma.toNat]) with
    | (w1, some e) => (w1, some e)
    | (w1, none) =>
      match bwWrite w1 (encodeField w1.Comma w1.UseCRLF w1.opts field) with
      | (w2, some e) => (w2, some e)
      | (w2, none) => writeFields w2 false rest

/-- `SafeWriter.Write`: reject an invalid delimiter before writing anything,
then run the field loop. -/
def SafeWriter.Write (w : SafeWriter) (record : List (List Char)) : SafeWriter × Option GoError :=
  if validDelim w.Comma then writeFields w true record
  else (w, some GoError.invalidDelim)

/-- `SafeWriter.Flush`: flush the buffered writer, ignoring its result. -/
def SafeWriter.Flush (w : SafeWriter) : SafeWriter :=
  (bwFlush w).1

/-- `SafeWriter.Error`: a zero-length write to the buffered writer, whose
result is the sticky error. -/
def SafeWriter.Error (w : SafeWriter) : Option GoError :=
  (bwWrite w []).2

/-- `SafeWriter.WriteAll`: write each record via `Write`, stopping at the
first error; on success return the final flush's result. -/
def SafeWriter.WriteAll : SafeWriter → List (List (List Char)) → SafeWriter × Option GoError
  | w, [] => bwFlush w
  | w, r :: rs =>
    match w.Write r with
    | (w1, some e) => (w1, some e)
    | (w1, none) => w1.WriteAll rs

/-- Pure denotation of one record's bytes, field by field, matching
`writeFields` on an error-free writer. -/
def fieldsBytes (comma : Int) (useCRLF : Bool) (opts : SafetyOpts) : Bool → List (List Char) → List Char
  | _, [] => if useCRLF then ['\r', '\n'] else ['\n']
  | isFirst, f :: rest =>
    (if isFirst then [] else [Char.ofNat comma.toNat])
      ++ encodeField comma useCRLF opts f ++ fieldsBytes comma useCRLF opts false rest

/-- Pure denotation of a whole record: what a successful `Write` appends. -/
def encodeRecord (comma : Int) (useCRLF : Bool) (opts : SafetyOpts) (record : List (List Char)) : List Char :=
  fieldsBytes comma useCRLF opts true record

/-- Pure denotation of a record sequence: what a successful `WriteAll` appends. -/
def recordsBytes (comma : Int) (useCRLF : Bool) (opts : SafetyOpts) : List (List (List Char)) → List Char
  | [] => []
  | r :: rs => encodeRecord comma useCRLF opts r ++ recordsBytes comma useCRLF opts rs

/-- A policy whose only enabled switch is `EscapeCharEqual` (claim C1's scenario). -/
def onlyEscapeEqual : SafetyOpts :=
  ⟨false, true, false, false, false, false, false⟩

/-- Modelled from the spec: the read path is not part of this repository, and
the spec's round-trip property appeals to "a standard-conformant CSV reader
configured with the same delimiter and the same CRLF mode". This decodes the
interior of a quoted field (everything after the opening `"`): a doubled `""`
decodes to one `"`, the closing `"` must end the input, and in CRLF mode the
line-break sequence `\r\n` decodes to `\n`; any other character is literal.
Returns `none` on malformed input. -/
def decodeQuoted (useCRLF : Bool) : List Char → Option (List Char)
  | [] => none
  | c :: rest =>
    if c = '\"' then
      match rest with
      | [] => some []
      | c2 :: rest2 =>
        if c2 = '\"' then (decodeQuoted useCRLF rest2).map (fun t => '\"' :: t) else none
    else if c = '\r' then
      match rest with
      | [] => (decodeQuoted useCRLF []).map (fun t => '\r' :: t)
      | c2 :: rest2 =>
        if useCRLF ∧ c2 = '\n' then (decodeQuoted useCRLF rest2).map (fun t => '\n' :: t)
        else (decodeQuoted useCRLF (c2 :: rest2)).map (fun t => '\r' :: t)
    else (decodeQuoted useCRLF rest).map (fun t => c :: t)

/-- Modelled from the spec: a standard-conformant CSV reader's view of one
encoded field. A field starting with `"` is read as a quoted field; any other
byte sequence is the field verbatim. -/
def decodeField (useCRLF : Bool) (s : List Char) : Option (List Char) :=
  match s with
  | [] => some []
  | c :: rest => if c = '\"' then decodeQuoted useCRLF rest else some (c :: rest)

/-- The per-character transform of the quoted-field encoder as the
specification words it (claim C6): `"` doubles, CR is dropped in CRLF mode and
kept otherwise, LF becomes CRLF in CRLF mode and stays otherwise, everything
else is copied verbatim. -/
def escapeQuotedChar (useCRLF : Bool) (c : Char) : List Char :=
  if c = '\"' then ['\"', '\"']
  else if c = '\r' then (if useCRLF then [] else ['\r'])
  else if c = '\n' then (if useCRLF then ['\r', '\n'] else ['\n'])
  else [c]

/-- The quoting decision as the specification words it (claim C2): empty never
quoted, the literal two-character `\.` always quoted, then forced quoting, then
presence of delimiter/quote/CR/LF, then a leading Unicode whitespace code
point. -/
def quotingDecisionSpec (comma : Int) (opts : SafetyOpts) (field : List Char) : Bool :=
  if field = [] then false
  else if field = ['\\', '.'] then true
  else if opts.ForceDoubleQuotes then true
  else if field.any (fun c =>
      decide ((c.toNat : Int) = comma) || decide (c = '\"')
        || decide (c = '\r') || decide (c = '\n')) then true
  else
    match field with
    | [] => false
    | c :: _ => unicodeIsSpace c

/-! ## Helper lemmas -/

theorem bwWrite_of_none (s : List Char) {w : SafeWriter} (h : w.werr = none) :
    bwWrite w s = ({ w with data := w.data ++ s }, none) := by
  simp [bwWrite, h]

theorem bwWrite_of_some (s : List Char) {w : SafeWriter} {e : GoError} (h : w.werr = some e) :
    bwWrite w s = (w, some e) := by
  simp [bwWrite, h]

theorem Error_eq_werr (w : SafeWriter) : w.Error = w.werr := by
  cases h : w.werr with
  | none => simp [SafeWriter.Error, bwWrite, h]
  | some e => simp [SafeWriter.Error, bwWrite, h]

theorem writeFields_of_none (rest : List (List Char)) : ∀ (w : SafeWriter) (isFirst : Bool),
    w.werr = none →
    writeFields w isFirst rest =
      ({ w with data := w.data ++ fieldsBytes w.Comma w.UseCRLF w.opts isFirst rest }, none) := by
  induction rest with
  | nil =>
    intro w isFirst h
    simp [writeFields, fieldsBytes, bwWrite_of_none _ h]
  | cons f rest ih =>
    intro w isFirst h
    cases isFirst <;> simp [writeFields, fieldsBytes, bwWrite, h, ih, List.append_assoc]

theorem writeFields_err (rest : List (List Char)) : ∀ (w : SafeWriter) (isFirst : Bool)
    (w' : SafeWriter) (e : GoError), writeFields w isFirst rest = (w', some e) →
    w' = w ∧ w.werr = some e := by
  induction rest with
  | nil =>
    intro w isFirst w' e hw
    cases h : w.werr with
    | none => rw [writeFields, bwWrite_of_none _ h] at hw; simp at hw
    | some e' =>
      rw [writeFields, bwWrite_of_some _ h] at hw
      obtain ⟨h1, h2⟩ := Prod.mk.injEq .. ▸ hw
      simp_all
  | cons f rest ih =>
    intro w isFirst w' e hw
    cases h : w.werr with
    | none =>
      cases isFirst <;>
        · simp [writeFields, bwWrite, h] at hw
          obtain ⟨h1, h2⟩ := ih _ false _ _ hw
          simp at h2
    | some e' =>
      cases isFirst <;> simp_all [writeFields, bwWrite, h]

theorem Write_of_none (record : List (List Char)) {w : SafeWriter}
    (hv : validDelim w.Comma = true) (h : w.werr = none) :
    w.Write record =
      ({ w with data := w.data ++ encodeRecord w.Comma w.UseCRLF w.opts record }, none) := by
  rw [SafeWriter.Write, if_pos hv, encodeRecord, writeFields_of_none _ _ _ h]

theorem Write_invalid (record : List (List Char)) {w : SafeWriter}
    (hv : validDelim w.Comma = false) :
    w.Write record = (w, some GoError.invalidDelim) := by
  rw [SafeWriter.Write, if_neg (by simp [hv])]

theorem Write_err {w : SafeWriter} {record : List (List Char)} {w' : SafeWriter} {e : GoError}
    (hw : w.Write record = (w', some e)) :
    (validDelim w.Comma = false ∧ w' = w ∧ e = GoError.invalidDelim) ∨
      (w' = w ∧ w.werr = some e) := by
  by_cases hv : validDelim w.Comma
  · right
    rw [SafeWriter.Write, if_pos hv] at hw
    exact writeFields_err _ _ _ _ _ hw
  · left
    rw [Write_invalid record (by simpa using hv)] at hw
    refine ⟨by simpa using hv, ?_, ?_⟩ <;> simp_all

theorem WriteAll_of_none (records : List (List (List Char))) : ∀ (w : SafeWriter),
    validDelim w.Comma = true → w.werr = none →
    w.WriteAll records =
      ({ w with data := w.data ++ recordsBytes w.Comma w.UseCRLF w.opts records }, none) := by
  induction records with
  | nil =>
    rintro ⟨cm, cr, op, da, we⟩ hv h
    simp only [SafeWriter.werr] at h
    subst h
    simp [SafeWriter.WriteAll, bwFlush, recordsBytes]
  | cons r rs ih =>
    rintro ⟨cm, cr, op, da, we⟩ hv h
    simp only [SafeWriter.werr] at h
    subst h
    have h1 := Write_of_none (w := ⟨cm, cr, op, da, none⟩) r (by simpa using hv) rfl
    have h2 := ih ⟨cm, cr, op, da ++ encodeRecord cm cr op r, none⟩ (by simpa using hv) rfl
    simp only [SafeWriter.Comma, SafeWriter.UseCRLF, SafeWriter.opts, SafeWriter.data,
      SafeWriter.werr] at h1 h2 ⊢
    simp [SafeWriter.WriteAll, h1, h2, recordsBytes, List.append_assoc]

/-! ## Claim theorems -/

/-- Claim C1, counterexample: with only `EscapeCharEqual` enabled, delimiter
`,` and LF mode, writing `["userId", "=A1", "foo, bar"]` does NOT produce the
claimed line `userId, =A1,"foo, bar"` + LF: the sanitized field ` =A1` starts
with a space, so the quoting decision quotes it. -/
theorem claim_C1_counterexample :
    ((NewSafeWriter onlyEscapeEqual).Write ["userId".data, "=A1".data, "foo, bar".data]).1.data
      ≠ "userId, =A1,\"foo, bar\"\n".data := by
  decide

/-- Claim C1, amended: with only `EscapeCharEqual` enabled, delimiter `,` and
LF mode, writing `["userId", "=A1", "foo, bar"]` produces exactly the line
`userId," =A1","foo, bar"` followed by a line feed, with no error: the
sanitized second field ` =A1` is emitted quoted (its first code point is a
space), and the third field is quoted because it contains the delimiter. -/
theorem claim_C1 :
    (NewSafeWriter onlyEscapeEqual).Write ["userId".data, "=A1".data, "foo, bar".data]
      = ({ NewSafeWriter onlyEscapeEqual with data := "userId,\" =A1\",\"foo, bar\"\n".data },
          none) := by
  decide

/-- Claim C3, counterexample: the `ConfigurationError` returned for an invalid
delimiter is NOT latched into the writer's sticky error state: the
record-write returns the error, yet a subsequent `Error` call returns `none`. -/
theorem claim_C3_counterexample :
    (SafeWriter.Write ⟨0, false, noSafety, [], none⟩ [['a']]).2 = some GoError.invalidDelim ∧
      (SafeWriter.Write ⟨0, false, noSafety, [], none⟩ [['a']]).1.Error = none := by
  decide

/-- Claim C3, amended: every IO error returned by a record-write comes from
(and remains in) the underlying buffered writer's sticky state, so `Error`
returns it afterwards; but the `ConfigurationError` for an invalid delimiter
is only returned to the caller and never latched — the writer is left
unchanged, so a subsequent `Error` call still reports the prior sticky state. -/
theorem claim_C3 (w : SafeWriter) (record : List (List Char)) (w' : SafeWriter) (e : GoError) :
    (w.Write record = (w', some e) → e ≠ GoError.invalidDelim → w'.Error = some e) ∧
      (validDelim w.Comma = false →
        w.Write record = (w, some GoError.invalidDelim) ∧ w.Error = w.werr) := by
  constructor
  · intro hw he
    rcases Write_err hw with ⟨hv, rfl, rfl⟩ | ⟨rfl, hs⟩
    · exact absurd rfl he
    · rw [Error_eq_werr, hs]
  · intro hv
    exact ⟨Write_invalid record hv, Error_eq_werr w⟩

/-- A writer with a previously latched IO error (for claim C3's witness). -/
def wIOErr : SafeWriter :=
  ⟨44, false, noSafety, [], some (GoError.ioError 7)⟩

/-- Claim C3, witness: concrete instances of both conjuncts of `claim_C3`. -/
theorem claim_C3_witness :
    wIOErr.Error = some (GoError.ioError 7) ∧
      SafeWriter.Write ⟨0, false, noSafety, ['x'], none⟩ [['a']]
        = (⟨0, false, noSafety, ['x'], none⟩, some GoError.invalidDelim) :=
  ⟨(claim_C3 wIOErr [['a']] wIOErr (GoError.ioError 7)).1 (by decide) (by decide),
   ((claim_C3 ⟨0, false, noSafety, ['x'], none⟩ [['a']] wIOErr GoError.invalidDelim).2
      (by decide)).1⟩

/-- Claim C7: a rune is a valid delimiter iff it is not NUL, `"` (34), CR
(13) or LF (10), lies in the valid non-surrogate code-point range, and is not
the replacement character U+FFFD (65533); `;` (59), tab (9) and `|` (124) are
accepted; and with an invalid delimiter every record-write fails with the
configuration error and writes nothing (the writer is unchanged). -/
theorem claim_C7 :
    (∀ r : Int, validDelim r = true ↔
      (r ≠ 0 ∧ r ≠ 34 ∧ r ≠ 13 ∧ r ≠ 10 ∧
        ((0 ≤ r ∧ r < 55296) ∨ (57343 < r ∧ r ≤ 1114111)) ∧ r ≠ 65533)) ∧
      validDelim 59 = true ∧ validDelim 9 = true ∧ validDelim 124 = true ∧
      (∀ (w : SafeWriter) (record : List (List Char)), validDelim w.Comma = false →
        w.Write record = (w, some GoError.invalidDelim)) := by
  refine ⟨?_, by decide, by decide, by decide, ?_⟩
  · intro r
    simp [validDelim, utf8ValidRune, and_assoc]
  · intro w record hv
    exact Write_invalid record hv

/-- Claim C7, witness: concrete instances of the quantified parts of
`claim_C7`, at delimiter `;` and at the invalid delimiter NUL. -/
theorem claim_C7_witness :
    (validDelim 59 = true ↔
      ((59 : Int) ≠ 0 ∧ (59 : Int) ≠ 34 ∧ (59 : Int) ≠ 13 ∧ (59 : Int) ≠ 10 ∧
        (((0 : Int) ≤ 59 ∧ (59 : Int) < 55296) ∨ ((57343 : Int) < 59 ∧ (59 : Int) ≤ 1114111)) ∧
        (59 : Int) ≠ 65533)) ∧
      SafeWriter.Write ⟨0, true, FullSafety, [], none⟩ [[]]
        = (⟨0, true, FullSafety, [], none⟩, some GoError.invalidDelim) :=
  ⟨claim_C7.1 59, claim_C7.2.2.2.2 ⟨0, true, FullSafety, [], none⟩ [[]] (by decide)⟩

/-- Claim C8: `WriteAll` writes the records in order via the single-record
write — on an error-free writer with a valid delimiter it appends exactly the
records' encodings in sequence and returns the flush result `none` — it stops
at the first record whose write fails and returns that error immediately, and
on the empty batch it just flushes, returning the sticky state. -/
theorem claim_C8 (w : SafeWriter) (records : List (List (List Char))) :
    (validDelim w.Comma = true → w.werr = none →
      w.WriteAll records =
        ({ w with data := w.data ++ recordsBytes w.Comma w.UseCRLF w.opts records }, none)) ∧
      (∀ (r : List (List Char)) (rs : List (List (List Char))) (w1 : SafeWriter) (e : GoError),
        w.Write r = (w1, some e) → w.WriteAll (r :: rs) = (w1, some e)) ∧
      (w.WriteAll [] = (w, w.werr)) := by
  refine ⟨fun hv h => WriteAll_of_none records w hv h, ?_, rfl⟩
  intro r rs w1 e hw
  simp [SafeWriter.WriteAll, hw]

/-- Claim C8, witness: concrete instances of both quantified conjuncts of
`claim_C8`: a two-record batch on a fresh writer, and fail-fast on an invalid
delimiter. -/
theorem claim_C8_witness :
    (NewSafeWriter noSafety).WriteAll [["a".data], ["b".data]]
        = ({ NewSafeWriter noSafety with
              data := (NewSafeWriter noSafety).data
                ++ recordsBytes (NewSafeWriter noSafety).Comma (NewSafeWriter noSafety).UseCRLF
                    (NewSafeWriter noSafety).opts [["a".data], ["b".data]] }, none) ∧
      SafeWriter.WriteAll ⟨0, false, noSafety, [], none⟩ [["a".data], ["b".data]]
        = (⟨0, false, noSafety, [], none⟩, some GoError.invalidDelim) :=
  ⟨(claim_C8 (NewSafeWriter noSafety) [["a".data], ["b".data]]).1 (by decide) rfl,
   (claim_C8 ⟨0, false, noSafety, [], none⟩ [["a".data], ["b".data]]).2.1 ["a".data] [["b".data]]
      ⟨0, false, noSafety, [], none⟩ GoError.invalidDelim (by decide)⟩

/-- Claim C10: with a valid delimiter and no latched error, writing the empty
record emits exactly the line terminator — LF in LF mode, CRLF in CRLF mode —
and succeeds; an empty record is not a no-op. -/
theorem claim_C10 (w : SafeWriter) (hv : validDelim w.Comma = true) (h : w.werr = none) :
    w.Write [] =
      ({ w with data := w.data ++ (if w.UseCRLF then ['\r', '\n'] else ['\n']) }, none) := by
  rw [Write_of_none [] hv h]
  rfl

/-- Claim C10, witness: the empty record on a fresh LF-mode writer emits `\n`. -/
theorem claim_C10_witness :
    (NewSafeWriter FullSafety).Write [] =
      ({ NewSafeWriter FullSafety with
          data := (NewSafeWriter FullSafety).data
            ++ (if (NewSafeWriter FullSafety).UseCRLF then ['\r', '\n'] else ['\n']) }, none) :=
  claim_C10 (NewSafeWriter FullSafety) (by decide) rfl

/-- Claim C5: sanitization returns either the original field or the original
field with exactly one leading space (length + 1); the space is prepended iff
the field is non-empty and its first character is `=`, `+`, `-`, `@`, tab, or
line feed with the corresponding switch enabled — the switch named
`EscapeCharCR` matching the literal line-feed character — and since the cases
compare the same single character against distinct literals, at most one case
can match, so first-match order is immaterial. -/
theorem claim_C5 (opts : SafetyOpts) (field : List Char) :
    (sanitizeField opts field = field ∨
      (sanitizeField opts field = ' ' :: field ∧
        (sanitizeField opts field).length = field.length + 1)) ∧
      (sanitizeField opts field = ' ' :: field ↔
        ∃ c rest, field = c :: rest ∧
          ((opts.EscapeCharEqual = true ∧ c = '=') ∨ (opts.EscapeCharPlus = true ∧ c = '+')
            ∨ (opts.EscapeCharMinus = true ∧ c = '-') ∨ (opts.EscapeCharAt = true ∧ c = '@')
            ∨ (opts.EscapeCharTab = true ∧ c = '\t') ∨ (opts.EscapeCharCR = true ∧ c = '\n'))) := by
  cases field with
  | nil =>
    refine ⟨Or.inl rfl, ⟨fun h => by simp [sanitizeField] at h, ?_⟩⟩
    rintro ⟨c, rest, h, -⟩
    cases h
  | cons c rest =>
    simp only [sanitizeField]
    split_ifs with h1 h2 h3 h4 h5 h6
    · exact ⟨Or.inr ⟨rfl, by simp⟩, ⟨fun _ => ⟨c, rest, rfl, Or.inl h1⟩, fun _ => rfl⟩⟩
    · exact ⟨Or.inr ⟨rfl, by simp⟩, ⟨fun _ => ⟨c, rest, rfl, Or.inr (Or.inl h2)⟩, fun _ => rfl⟩⟩
    · exact ⟨Or.inr ⟨rfl, by simp⟩,
        ⟨fun _ => ⟨c, rest, rfl, Or.inr (Or.inr (Or.inl h3))⟩, fun _ => rfl⟩⟩
    · exact ⟨Or.inr ⟨rfl, by simp⟩,
        ⟨fun _ => ⟨c, rest, rfl, Or.inr (Or.inr (Or.inr (Or.inl h4)))⟩, fun _ => rfl⟩⟩
    · exact ⟨Or.inr ⟨rfl, by simp⟩,
        ⟨fun _ => ⟨c, rest, rfl, Or.inr (Or.inr (Or.inr (Or.inr (Or.inl h5))))⟩, fun _ => rfl⟩⟩
    · exact ⟨Or.inr ⟨rfl, by simp⟩,
        ⟨fun _ => ⟨c, rest, rfl, Or.inr (Or.inr (Or.inr (Or.inr (Or.inr h6))))⟩, fun _ => rfl⟩⟩
    · refine ⟨Or.inl rfl, ⟨fun h => ?_, ?_⟩⟩
      · exfalso
        have hlen := congrArg List.length h
        simp at hlen
      · rintro ⟨c', rest', heq, hdis⟩
        injection heq with hc hr
        subst hc
        subst hr
        exfalso
        rcases hdis with h | h | h | h | h | h
        exacts [h1 h, h2 h, h3 h, h4 h, h5 h, h6 h]

/-- Claim C9: whenever sanitization changed a field (an enabled escape switch
fired and prepended a space), the quoting policy quotes the sanitized field,
for every delimiter and policy: its first code point is a space, which is
Unicode whitespace. Sanitization never produces an unquoted output field. -/
theorem claim_C9 (comma : Int) (opts : SafetyOpts) (field : List Char)
    (h : sanitizeField opts field ≠ field) :
    fieldNeedsQuotes comma opts (sanitizeField opts field) = true := by
  have hs : sanitizeField opts field = ' ' :: field := by
    cases field with
    | nil => exact absurd rfl h
    | cons c rest =>
      simp only [sanitizeField] at h ⊢
      split_ifs at h ⊢ <;> first | rfl | exact absurd rfl h
  rw [hs]
  unfold fieldNeedsQuotes
  split_ifs <;> simp_all [unicodeIsSpace]

/-- Claim C9, witness: with `EscapeAll` and delimiter `,`, the field `=A1` is
sanitized (changed) and the sanitized field is quoted. -/
theorem claim_C9_witness :
    fieldNeedsQuotes 44 EscapeAll (sanitizeField EscapeAll "=A1".data) = true :=
  claim_C9 44 EscapeAll "=A1".data (by decide)

theorem any_pointwise {p q : Char → Bool} (l : List Char) (h : ∀ c, p c = q c) :
    l.any p = l.any q := by
  induction l with
  | nil => rfl
  | cons c t ih => simp only [List.any_cons, h, ih]

theorem any_or_split (p q : Char → Bool) (l : List Char) :
    (l.any fun c => p c || q c) = (l.any p || l.any q) := by
  induction l with
  | nil => rfl
  | cons c t ih =>
    simp only [List.any_cons, ih]
    cases p c <;> cases q c <;> cases t.any p <;> cases t.any q <;> rfl

theorem scan_eq (comma : Int) (field : List Char) :
    (if comma < 128 then
        field.any fun c =>
          decide (c = '\n') || decide (c = '\r') || decide (c = '\"')
            || decide ((c.toNat : Int) = comma)
      else
        (field.any fun c => decide ((c.toNat : Int) = comma))
          || (field.any fun c => decide (c = '\"') || decide (c = '\r') || decide (c = '\n')))
      = field.any fun c =>
          decide ((c.toNat : Int) = comma) || decide (c = '\"')
            || decide (c = '\r') || decide (c = '\n') := by
  by_cases hc : comma < 128
  · rw [if_pos hc]
    apply any_pointwise
    intro c
    cases hn : decide (c = '\n') <;> cases hr : decide (c = '\r') <;>
      cases hq : decide (c = '\"') <;> cases hm : decide ((c.toNat : Int) = comma) <;> rfl
  · rw [if_neg hc, ← any_or_split]
    apply any_pointwise
    intro c
    cases hm : decide ((c.toNat : Int) = comma) <;> cases hq : decide (c = '\"') <;>
      cases hr : decide (c = '\r') <;> cases hn : decide (c = '\n') <;> rfl

/-- Claim C2: for every field, delimiter and policy (stated on the valid
delimiters, where the embedding is faithful to the source's byte scan), the
quoting decision follows exactly the spec's order: empty never quoted even
under forced quoting; the literal `\.` always quoted; then forced quoting;
then containment of delimiter, `"`, CR, or LF; then a leading Unicode
whitespace code point; else unquoted. -/
theorem claim_C2 (comma : Int) (opts : SafetyOpts) (field : List Char)
    (_hv : validDelim comma = true) :
    fieldNeedsQuotes comma opts field = quotingDecisionSpec comma opts field := by
  simp only [fieldNeedsQuotes, quotingDecisionSpec, scan_eq]

/-- Claim C2, witness: the decision procedures agree on the field `a,b` with
delimiter `,` and no safety switches. -/
theorem claim_C2_witness :
    validDelim 44 = true ∧
      fieldNeedsQuotes 44 noSafety "a,b".data = quotingDecisionSpec 44 noSafety "a,b".data :=
  ⟨by decide, claim_C2 44 noSafety "a,b".data (by decide)⟩

theorem writeQuotedBody_eq (useCRLF : Bool) (f : List Char) :
    writeQuotedBody useCRLF f = f.flatMap (escapeQuotedChar useCRLF) := by
  induction f with
  | nil => rfl
  | cons c t ih => simp only [writeQuotedBody, escapeQuotedChar, List.flatMap_cons, ih]

/-- Claim C6: whenever the quoting policy decides to quote the (sanitized)
field, the emitted bytes are a double-quote, then the field's content with
each `"` doubled, each CR dropped in CRLF mode and kept otherwise, and each LF
emitted as CRLF in CRLF mode and kept otherwise — all other characters copied
verbatim in order — then a closing double-quote. -/
theorem claim_C6 (comma : Int) (useCRLF : Bool) (opts : SafetyOpts) (field : List Char)
    (h : fieldNeedsQuotes comma opts (sanitizeField opts field) = true) :
    encodeField comma useCRLF opts field =
      '\"' :: ((sanitizeField opts field).flatMap (escapeQuotedChar useCRLF) ++ ['\"']) := by
  simp only [encodeField, h, if_true, writeQuotedBody_eq]

/-- Claim C6, witness: the quoted emission of the field `a"b` (which contains
a double-quote, hence is quoted) in LF mode. -/
theorem claim_C6_witness :
    encodeField 44 false noSafety "a\"b".data =
      '\"' :: ((sanitizeField noSafety "a\"b".data).flatMap (escapeQuotedChar false) ++ ['\"']) :=
  claim_C6 44 false noSafety "a\"b".data (by decide)

theorem decodeQuoted_body (useCRLF : Bool) (f : List Char) :
    decodeQuoted useCRLF (writeQuotedBody useCRLF f ++ ['\"']) =
      some (if useCRLF then f.filter (fun c => !decide (c = '\r')) else f) := by
  induction f with
  | nil =>
    rw [writeQuotedBody, List.nil_append, decodeQuoted.eq_def]
    cases useCRLF <;> simp
  | cons c t ih =>
    cases useCRLF with
    | false =>
      by_cases hq : c = '\"'
      · subst hq
        have hseg : writeQuotedBody false ('\"' :: t) = '\"' :: '\"' :: writeQuotedBody false t := by
          simp [writeQuotedBody]
        rw [hseg, List.cons_append, List.cons_append, decodeQuoted.eq_def]
        simp [ih]
      · by_cases hr : c = '\r'
        · subst hr
          have hseg : writeQuotedBody false ('\r' :: t) = '\r' :: writeQuotedBody false t := by
            simp [writeQuotedBody]
          rw [hseg, List.cons_append]
          cases hrest : writeQuotedBody false t ++ ['\"'] with
          | nil => simp at hrest
          | cons c2 r2 =>
            rw [hrest] at ih
            rw [decodeQuoted.eq_def]
            simp [ih]
        · by_cases hn : c = '\n'
          · subst hn
            have hseg : writeQuotedBody false ('\n' :: t) = '\n' :: writeQuotedBody false t := by
              simp [writeQuotedBody]
            rw [hseg, List.cons_append, decodeQuoted.eq_def]
            simp [ih]
          · have hseg : writeQuotedBody false (c :: t) = c :: writeQuotedBody false t := by
              simp [writeQuotedBody, hq, hr, hn]
            rw [hseg, List.cons_append, decodeQuoted.eq_def]
            simp [hq, hr, hn, ih]
    | true =>
      by_cases hq : c = '\"'
      · subst hq
        have hseg : writeQuotedBody true ('\"' :: t) = '\"' :: '\"' :: writeQuotedBody true t := by
          simp [writeQuotedBody]
        rw [hseg, List.cons_append, List.cons_append, decodeQuoted.eq_def]
        simp [ih]
      · by_cases hr : c = '\r'
        · subst hr
          have hseg : writeQuotedBody true ('\r' :: t) = writeQuotedBody true t := by
            simp [writeQuotedBody]
          rw [hseg]
          simpa using ih
        · by_cases hn : c = '\n'
          · subst hn
            have hseg : writeQuotedBody true ('\n' :: t) = '\r' :: '\n' :: writeQuotedBody true t := by
              simp [writeQuotedBody]
            rw [hseg, List.cons_append, List.cons_append, decodeQuoted.eq_def]
            simp [ih]
          · have hseg : writeQuotedBody true (c :: t) = c :: writeQuotedBody true t := by
              simp [writeQuotedBody, hq, hr, hn]
            rw [hseg, List.cons_append, decodeQuoted.eq_def]
            simp [hq, hr, hn, ih]

theorem not_quoted_no_special {comma : Int} {opts : SafetyOpts} {f : List Char}
    (h : fieldNeedsQuotes comma opts f = false) :
    ∀ c ∈ f, (c.toNat : Int) ≠ comma ∧ c ≠ '\"' ∧ c ≠ '\r' ∧ c ≠ '\n' := by
  intro c hc
  simp only [fieldNeedsQuotes, scan_eq] at h
  by_cases h0 : f = []
  · subst h0; cases hc
  rw [if_neg h0] at h
  by_cases h1 : f = ['\\', '.']
  · rw [if_pos h1] at h; cases h
  rw [if_neg h1] at h
  by_cases h2 : opts.ForceDoubleQuotes = true
  · rw [if_pos h2] at h; cases h
  rw [if_neg h2] at h
  cases hs : (f.any fun c =>
      decide ((c.toNat : Int) = comma) || decide (c = '\"')
        || decide (c = '\r') || decide (c = '\n')) with
  | true => rw [hs] at h; simp at h
  | false =>
    have h3 := List.any_eq_false.mp hs c hc
    simp only [Bool.or_eq_true, decide_eq_true_eq, not_or] at h3
    obtain ⟨⟨⟨ha, hb⟩, hc'⟩, hd⟩ := h3
    exact ⟨ha, hb, hc', hd⟩

theorem encode_decode (comma : Int) (useCRLF : Bool) (opts : SafetyOpts) (f : List Char) :
    decodeField useCRLF
        (if fieldNeedsQuotes comma opts f then '\"' :: (writeQuotedBody useCRLF f ++ ['\"'])
         else f) =
      some (if useCRLF then f.filter (fun c => !decide (c = '\r')) else f) := by
  by_cases hq : fieldNeedsQuotes comma opts f = true
  · rw [if_pos hq]
    simp only [decodeField, reduceIte]
    exact decodeQuoted_body useCRLF f
  · have hq0 : fieldNeedsQuotes comma opts f = false := Bool.not_eq_true _ ▸ hq
    rw [if_neg hq]
    have hns := not_quoted_no_special hq0
    have hfilter : f.filter (fun c => !decide (c = '\r')) = f := by
      rw [List.filter_eq_self]
      intro a ha
      simp [(hns a ha).2.2.1]
    cases f with
    | nil => cases useCRLF <;> simp [decodeField]
    | cons c t =>
      have hc := hns c (by simp)
      simp only [decodeField, if_neg hc.2.1]
      rw [hfilter]
      cases useCRLF <;> simp

/-- Claim C4, counterexample: in CRLF mode a field containing a carriage
return does not round-trip: the CR is dropped by the quoted-field encoder, so
the decoded field is neither the original nor the original with one leading
space (here no safety switch fired at all). -/
theorem claim_C4_counterexample :
    validDelim 44 = true ∧ sanitizeField noSafety ['\r'] = ['\r'] ∧
      decodeField true (encodeField 44 true noSafety ['\r']) = some [] ∧
      ([] : List Char) ≠ ['\r'] ∧ ([] : List Char) ≠ ' ' :: ['\r'] := by
  decide

/-- Claim C4, amended: for every field, valid delimiter, policy and
line-terminator mode, encoding then decoding with a standard-conformant
reader in the same mode yields the sanitized field (the original, or the
original with one leading space when an enabled switch matched its first
character) with, in CRLF mode only, every carriage-return character removed;
in LF mode the sanitized field is recovered exactly. -/
theorem claim_C4 (comma : Int) (useCRLF : Bool) (opts : SafetyOpts) (field : List Char)
    (_hv : validDelim comma = true) :
    decodeField useCRLF (encodeField comma useCRLF opts field) =
      some (if useCRLF then (sanitizeField opts field).filter (fun c => !decide (c = '\r'))
            else sanitizeField opts field) := by
  simp only [encodeField]
  exact encode_decode comma useCRLF opts (sanitizeField opts field)

/-- Claim C4, witness: the field `=A1` with the escape-equals switch enabled
in LF mode decodes back to the sanitized field ` =A1`. -/
theorem claim_C4_witness :
    decodeField false (encodeField 44 false onlyEscapeEqual "=A1".data) =
      some (if false then (sanitizeField onlyEscapeEqual "=A1".data).filter
              (fun c => !decide (c = '\r'))
            else sanitizeField onlyEscapeEqual "=A1".data) :=
  claim_C4 44 false onlyEscapeEqual "=A1".data (by decide)
